import Mathlib

/-!
Shallow embedding of the nebulizer granular-synthesis core (Rust), for
checking its natural-language specification.

Modelling conventions:
- `f32` and `f64` values are modelled as real numbers (`ℝ`); `Duration`
  values are modelled as nonnegative reals measured in seconds, except in
  `AudioClip.duration_per_sample`, where the integer nanosecond arithmetic
  of the source is kept as `ℕ`.
- Rust float operations that produce a non-real result (`0.0/0.0 = NaN`,
  `x/0.0 = inf`) are tracked with `Option ℝ`: `none` means the computation
  left the real numbers.  Fallible iterator pulls are `Option` as well.
- Machine integers (`u7`, `u8`, `u16`, `u32`, `usize`) are modelled as `ℕ`,
  `i32` as `ℤ`; none of the claims exercises wrap-around.
-/

noncomputable section

open Real

/-- Model of `emath::lerp(a..=b, t) = (1 - t) * a + t * b` (egui). -/
def lerp (a b t : ℝ) : ℝ := (1 - t) * a + t * b

/-- Division as performed on `f32`/`f64`, tracking the escape from the reals:
a zero denominator yields `NaN` or `inf` in Rust, modelled as `none`. -/
def fdiv (a b : ℝ) : Option ℝ := if b = 0 then none else some (a / b)

/-- NaN-propagating product of two possibly-non-real sample values. -/
def omul (a b : Option ℝ) : Option ℝ :=
  match a, b with
  | some x, some y => some (x * y)
  | _, _ => none

/-- NaN-propagating sum of two possibly-non-real sample values.  This models
rodio `Sample::saturating_add` at type `f32`, which is plain addition. -/
def oadd (a b : Option ℝ) : Option ℝ :=
  match a, b with
  | some x, some y => some (x + y)
  | _, _ => none

/-- Model of Rust `clamp(x, lo, hi)` on floats. -/
def fclamp (x lo hi : ℝ) : ℝ := min hi (max lo x)

/-- Core of `emath::remap_clamp(x, a..=b, c..=d)` for the already ordered
case `a ≤ b`; mirrors the egui source including the final `1 ≤ t` guard,
with the binding `t = (x - a) / (b - a)` inlined. -/
def remapClampCore (x a b c d : ℝ) : ℝ :=
  if x ≤ a then c
  else if x ≥ b then d
  else if 1 ≤ (x - a) / (b - a) then d
  else lerp c d ((x - a) / (b - a))

/-- Model of `emath::remap_clamp`.  The egui source first flips a reversed
input range (one self-call with swapped ends); that single recursion is
unfolded here into the `b < a` branch. -/
def remap_clamp (x a b c d : ℝ) : ℝ :=
  if b < a then remapClampCore x b a d c else remapClampCore x a b c d

/-! ## AudioClip (src/audio_clip.rs) -/

/-- Model of `AudioClip<I>`: interleaved sample buffer, channel count and
sample rate.  Sample values are `f32`, modelled as `ℝ`. -/
structure AudioClip where
  data : List ℝ
  channels : ℕ
  sample_rate : ℕ

/-- Nanoseconds per interleaved sample:
`NANOS_PER_SEC / (sample_rate as u64 * channels as u64)` with integer
(truncating) division, exactly as in `AudioClip::duration_per_sample`.
(The Rust code panics when `sample_rate * channels = 0`; Lean `ℕ` division
returns `0` there; all theorems below assume both factors positive.) -/
def AudioClip.duration_per_sample_ns (c : AudioClip) : ℕ :=
  1000000000 / (c.sample_rate * c.channels)

/-- `AudioClip::duration_per_sample` as a length of time in seconds:
`Duration::new(0, ns)` holds exactly `duration_per_sample_ns` nanoseconds. -/
def AudioClip.duration_per_sample (c : AudioClip) : ℝ :=
  (c.duration_per_sample_ns : ℝ) / 1000000000

/-- `AudioClip::total_duration = duration_per_sample().mul_f64(data.len())`,
with `Duration::mul_f64` modelled as exact real multiplication. -/
def AudioClip.total_duration (c : AudioClip) : ℝ :=
  c.duration_per_sample * (c.data.length : ℝ)

/-! ## AdsrEnvelope (src/envelope.rs)

The Rust struct stores four `Parameter` fields and every envelope method
only reads them through `Parameter::get()`; the model therefore carries the
current values directly: `attack`, `decay`, `release` in seconds and the
`sustain_level` level. -/

structure AdsrEnvelope where
  attack : ℝ
  decay : ℝ
  sustain_level : ℝ
  release : ℝ

/-- `AdsrEnvelope::default()`: attack `Duration::ZERO`, decay 1 s,
sustain 1.0, release 15 ms (the `Parameter` ranges and log flags do not
enter the envelope arithmetic). -/
def adsr_default : AdsrEnvelope :=
  { attack := 0, decay := 1, sustain_level := 1, release := 15 / 1000 }

/-- Model of `AdsrEnvelope::held_amplitude`.  The branch guards compare
`Duration` values exactly; each ramp divides elapsed time by the segment
duration, so a zero-length segment reached at its own boundary computes
`0.0/0.0` in Rust (NaN), modelled as `none`. -/
def AdsrEnvelope.held_amplitude (e : AdsrEnvelope) (held_for : ℝ) : Option ℝ :=
  if held_for ≤ e.attack then
    (fdiv held_for e.attack).map (lerp 0 1)
  else if held_for ≤ e.attack + e.decay then
    (fdiv (held_for - e.attack) e.decay).map (lerp 1 e.sustain_level)
  else
    some e.sustain_level

/-- Model of `AdsrEnvelope::released_amplitude`. -/
def AdsrEnvelope.released_amplitude (e : AdsrEnvelope) (since_released : ℝ) : Option ℝ :=
  if since_released > e.release then
    some 0
  else
    (fdiv since_released e.release).map (lerp e.sustain_level 0)

/-! ## GrainEnvelope / tukey window (src/envelope.rs and
src/grain_envelope.rs carry the same two definitions verbatim) -/

structure GrainEnvelope where
  amount : ℝ
  skew : ℝ

/-- Model of `tukey_window(x, length, radius, skew)`.  Branches follow the
source exactly.  In the final branch the divisor `length * radius - b` can
be zero (for `skew = 1` or `radius = 0`), in which case the Rust code feeds
`0.0/0.0` to `cos` and returns NaN: modelled as `none`.  In the first cosine
branch the guard `x < 0.5 * (length * radius + b)` together with `0 ≤ x`
forces a positive divisor, so that division stays real. -/
def tukey_window (x length radius skew : ℝ) : Option ℝ :=
  let b := fclamp skew (-1) 1 * length * radius
  if x < 0 ∨ x > length then
    some 0
  else if x < 0.5 * (length * radius + b) then
    some (0.5 * (1 - Real.cos ((2 * π * x) / (length * radius + b))))
  else if x < length - 0.5 * (length * radius - b) then
    some 1
  else if length * radius - b = 0 then
    none
  else
    some (0.5 * (1 + Real.cos
      ((2 * π * (x - length + 0.5 * (length * radius - b))) / (length * radius - b))))

/-- Model of `GrainEnvelope::amplitude_at(x) = tukey_window(x, 1.0, amount, skew)`. -/
def GrainEnvelope.amplitude_at (e : GrainEnvelope) (x : ℝ) : Option ℝ :=
  tukey_window x 1 e.amount e.skew

/-! ## Parameter (src/params.rs)

`value_to_normalized` / `normalized_to_value` are `f64` computations; the
numeric-kind conversions (`Numeric::to_f64` / `from_f64`) are identities in
the real model.  The `assert!` in the logarithmic branch (which demands
`min >= 0` there) is modelled as `none` (fail fast); both functions flip a
reversed range through one self-call, unfolded below into a wrapper. -/

/-- Branches of `Parameter::value_to_normalized` after the degenerate and
reversed-range cases, i.e. under `min < max`; the source bindings
`min_log` / `max_log` are inlined. -/
def vtnCore (logarithmic : Bool) (sp value min max : ℝ) : Option ℝ :=
  if value ≤ min then some 0
  else if value ≥ max then some 1
  else if logarithmic then
    if 0 ≤ min then
      some (remap_clamp (Real.logb 10 value)
        (if min ≤ sp then Real.logb 10 sp else Real.logb 10 min)
        (Real.logb 10 max) 0 1)
    else none
  else some (remap_clamp value min max 0 1)

/-- Model of `Parameter::value_to_normalized(value, min..=max)` with
log-scale floor `sp` (the `smallest_positive` field). -/
def value_to_normalized (logarithmic : Bool) (sp value min max : ℝ) : Option ℝ :=
  if min = max then some 0.5
  else if min > max then (vtnCore logarithmic sp value max min).map (fun r => 1 - r)
  else vtnCore logarithmic sp value min max

/-- Branches of `Parameter::normalized_to_value` under `min < max`; the
source bindings `min_log` / `max_log` are inlined. -/
def ntvCore (logarithmic : Bool) (sp normalized min max : ℝ) : Option ℝ :=
  if normalized ≤ 0 then some min
  else if normalized ≥ 1 then some max
  else if logarithmic then
    if 0 ≤ min then
      some ((10 : ℝ) ^ (lerp
        (if min ≤ sp then Real.logb 10 sp else Real.logb 10 min)
        (Real.logb 10 max) normalized))
    else none
  else some (lerp min max (fclamp normalized 0 1))

/-- Model of `Parameter::normalized_to_value(normalized, min..=max)`. -/
def normalized_to_value (logarithmic : Bool) (sp normalized min max : ℝ) : Option ℝ :=
  if min = max then some min
  else if min > max then ntvCore logarithmic sp (1 - normalized) max min
  else ntvCore logarithmic sp normalized min max

/-- `set_normalized(get_normalized())` at the value level: the round trip
the spec asserts for `Parameter`. -/
def param_round_trip (logarithmic : Bool) (sp value min max : ℝ) : Option ℝ :=
  (value_to_normalized logarithmic sp value min max).bind
    (fun n => normalized_to_value logarithmic sp n min max)

/-! ## Grain (src/grain.rs)

`Grain::next` pulls from an inner rodio chain
`UniformSourceIterator<Speed<Amplify<GrainInner>>>`; `Amplify` scales every
sample by the grain amplitude, while `Speed` and `UniformSourceIterator`
(external rodio library code) only retime the stream and pass sample values
through from `GrainInner`, the only stage of the chain that touches the
clip buffer.  The model therefore reads through `Amplify ∘ GrainInner`.
The GUI-only fields (`start_position`, `position_per_second`,
`sample_rate`) do not enter `next` and are omitted. -/

/-- Model of `GrainInner`: a raw read cursor into the shared clip. -/
structure GrainInner where
  audio_clip : AudioClip
  index : ℕ

/-- Model of `<GrainInner as Iterator>::next`:
`self.audio_clip.data.get(self.index)` (checked access; `None` past the
end), then `self.index += 1`. -/
def GrainInner.next (g : GrainInner) : Option ℝ × GrainInner :=
  (g.audio_clip.data.get? g.index, { g with index := g.index + 1 })

/-- Model of `Grain<I>`. -/
structure Grain where
  inner : GrainInner
  amplitude : ℝ
  envelope : GrainEnvelope
  total_duration : ℝ
  elapsed_duration : ℝ
  duration_per_sample : ℝ

/-- Model of `Grain::new`: the absolute start index is
`(samples_per_channel as f32 * start_position) as usize * channels`
(the float-to-usize cast truncates toward zero and clamps below at 0,
modelled with `Int.toNat ∘ Int.floor`); the per-sample duration and the
total duration are scaled by `1.0 / speed` via `Duration::mul_f32`,
modelled as exact multiplication. -/
def Grain.new (clip : AudioClip) (start_position length speed amplitude : ℝ)
    (envelope : GrainEnvelope) : Grain :=
  let samples_per_channel := clip.data.length / clip.channels
  let index := (⌊(samples_per_channel : ℝ) * start_position⌋.toNat) * clip.channels
  { inner := { audio_clip := clip, index := index }
    amplitude := amplitude
    envelope := envelope
    total_duration := length * (1 / speed)
    elapsed_duration := 0
    duration_per_sample := clip.duration_per_sample * (1 / speed) }

/-- Model of `<Grain as Iterator>::next`.  The outer `Option` is the
iterator protocol (`none` = no sample, the grain is spent or the clip ran
out); the inner `Option ℝ` is a sample value that may have left the reals
(NaN envelope factor).  Mirrors the source: finished check, envelope factor
from normalized progress, one pull of the inner chain mapped through the
factor, then the elapsed-time bump. -/
def Grain.next (g : Grain) : Option (Option ℝ) × Grain :=
  if g.elapsed_duration ≥ g.total_duration then
    (none, g)
  else
    let factor : Option ℝ :=
      (fdiv g.elapsed_duration g.total_duration).bind g.envelope.amplitude_at
    let r := g.inner.next
    let sample : Option (Option ℝ) :=
      r.1.map (fun s => omul (some (s * g.amplitude)) factor)
    (sample, { g with inner := r.2,
                      elapsed_duration := g.elapsed_duration + g.duration_per_sample })

/-! ## Emitter (src/emitter.rs)

The emitter stores pitched-grain iterators of type
`UniformSourceIterator<Speed<Grain<I>>, I>`: a rodio resampling chain
around the grain.  That chain is external library state, abstracted here as
a type parameter `G` together with one pull function
`gnext : G → Option (Option ℝ) × G` and a constructor `mkG` applied to the
exact data `make_grain` computes.  `thread_rng().gen_range(lo..hi)` is
modelled by an injected picker `rng lo hi`.  The message `Receiver` is
modelled by handing each `next` call the list of messages drained from the
channel, in arrival order. -/

inductive NoteState where
  | held (t : ℝ)
  | released (t : ℝ)
  | finished

/-- Models the source comparison `note.state == NoteState::Finished`. -/
def NoteState.isFinished : NoteState → Bool
  | .finished => true
  | _ => false

structure Note (G : Type) where
  key : ℕ
  envelope : AdsrEnvelope
  state : NoteState
  grains : List G
  since_last_grain : ℝ

/-- Model of `Note::new`: state `Held(ZERO)`, no grains, and
`since_last_grain = Duration::from_secs(100)`. -/
def Note.new (G : Type) (key : ℕ) (envelope : AdsrEnvelope) : Note G :=
  { key := key, envelope := envelope, state := .held 0, grains := []
    since_last_grain := 100 }

/-- Modelled from the spec: `Emitter::handle_message` and `Note::update` in
`src/emitter.rs` read a field `release_ms` of the `AdsrEnvelope` revision
they were written against, which is not under src (the `AdsrEnvelope`
present in `src/envelope.rs` stores `release` as a `Parameter<Duration>`).
Following the spec (release transition once elapsed reaches
`envelope.release`), `release_ms` is the release duration in
milliseconds. -/
def AdsrEnvelope.release_ms (e : AdsrEnvelope) : ℝ := e.release * 1000

/-- Model of `Note::update`: advance the spawn timer, age the current
state, and perform the Released to Finished transition once
`new_time.as_secs_f32() * 1000.0 >= envelope.release_ms`. -/
def Note.update {G : Type} (n : Note G) (delta_time : ℝ) : Note G :=
  { n with
    since_last_grain := n.since_last_grain + delta_time
    state :=
      match n.state with
      | .held t => .held (t + delta_time)
      | .released t =>
          let new_time := t + delta_time
          if new_time * 1000 ≥ n.envelope.release_ms then .finished
          else .released new_time
      | .finished => .finished }

/-- Model of `Note::amplitude`. -/
def Note.amplitude {G : Type} (n : Note G) : Option ℝ :=
  match n.state with
  | .held t => n.envelope.held_amplitude t
  | .released t => n.envelope.released_amplitude t
  | .finished => some 0

inductive KeyMode where
  | pitch
  | slice (num_slices : ℕ)

structure EmitterSettings where
  key_mode : KeyMode
  position : ℝ
  spray_ms : ℝ
  length_ms : ℝ
  density : ℝ
  grain_envelope : GrainEnvelope
  note_envelope : AdsrEnvelope
  transpose : ℤ
  amplitude : ℝ

/-- Model of `EmitterSettings::default()`. -/
def emitter_settings_default : EmitterSettings :=
  { key_mode := .pitch, position := 0, spray_ms := 0, length_ms := 100
    density := 10, grain_envelope := { amount := 0.5, skew := 0 }
    note_envelope := adsr_default, transpose := 0, amplitude := 1 }

/-- Model of the `MidiMessage` cases the emitter distinguishes; `other`
stands for every variant handled by the catch-all arm. -/
inductive MidiMsg where
  | noteOn (key : ℕ)
  | noteOff (key : ℕ)
  | other

inductive EmitterMessage where
  | settings (s : EmitterSettings)
  | midi (m : MidiMsg)
  | terminate

structure Emitter (G : Type) where
  audio_clip : AudioClip
  settings : EmitterSettings
  notes : List (Note G)
  terminated : Bool

/-- Model of `Emitter::new`: default settings, empty note pool, not
terminated. -/
def Emitter.new (G : Type) (clip : AudioClip) : Emitter G :=
  { audio_clip := clip, settings := emitter_settings_default, notes := []
    terminated := false }

/-- Model of `interval_to_ratio`: `2.0f32.powf(semitones as f32 / 12.0)`. -/
def interval_to_ratio (semitones : ℤ) : ℝ := (2 : ℝ) ^ ((semitones : ℝ) / 12)

/-- The grain start position computed inside `Emitter::make_grain`:
position parameter in Pitch mode, key-selected slice in Slice mode, then
optional spray jitter drawn from `rng` over the clamped window. -/
def grain_start {G : Type} (rng : ℝ → ℝ → ℝ) (e : Emitter G) (note : Note G) : ℝ :=
  let pos :=
    match e.settings.key_mode with
    | .pitch => e.settings.position
    | .slice num_slices => ((note.key % num_slices : ℕ) : ℝ) / (num_slices : ℝ)
  if e.settings.spray_ms > 0 then
    let clip_ms := e.audio_clip.total_duration * 1000
    let spray_relative := e.settings.spray_ms / clip_ms
    let lo := max (pos - spray_relative / 2) 0
    let hi := min (pos + spray_relative / 2) 1
    rng lo hi
  else pos

/-- The grain playback speed computed inside `Emitter::make_grain`:
`interval_to_ratio((key + transpose) - 60)` in Pitch mode,
`interval_to_ratio(transpose)` in Slice mode. -/
def grain_speed (settings : EmitterSettings) (key : ℕ) : ℝ :=
  match settings.key_mode with
  | .pitch => interval_to_ratio ((key : ℤ) + settings.transpose - 60)
  | .slice _ => interval_to_ratio settings.transpose

/-- The data `Emitter::make_grain` feeds to
`Grain::new(clip, start, duration, envelope).speed(speed)` before wrapping
it in the rodio `UniformSourceIterator` (clip and output format are shared
from the emitter state). -/
structure GrainSpec where
  start : ℝ
  speed : ℝ
  duration : ℝ
  envelope : GrainEnvelope

/-- Model of `Emitter::make_grain`, split into `grain_start` /
`grain_speed` for the two `let` blocks of the source; the grain duration is
`Duration::from_secs_f32(length_ms * 0.001)`. -/
def make_grain {G : Type} (mkG : GrainSpec → G) (rng : ℝ → ℝ → ℝ)
    (e : Emitter G) (note : Note G) : G :=
  mkG { start := grain_start rng e note
        speed := grain_speed e.settings note.key
        duration := e.settings.length_ms * 0.001
        envelope := e.settings.grain_envelope }

/-- Model of `Emitter::grain_interval`: `1.0 / density` seconds. -/
def grain_interval (settings : EmitterSettings) : ℝ := 1 / settings.density

/-- Model of `Emitter::handle_message`.  The NoteOff arm mirrors the
`iter_mut` loop: every note of the pool with the matching key is set to
`Released(ZERO)`; other notes are untouched. -/
def Emitter.handle_message {G : Type} (e : Emitter G) (msg : EmitterMessage) :
    Emitter G :=
  match msg with
  | .settings s => { e with settings := s }
  | .midi m =>
    match m with
    | .noteOn key =>
        { e with notes := e.notes ++ [Note.new G key e.settings.note_envelope] }
    | .noteOff key =>
        { e with notes := e.notes.map (fun n =>
            if n.key = key then { n with state := .released 0 } else n) }
    | .other => e
  | .terminate => { e with terminated := true }

/-- `Vec::reduce` over sample values (empty input gives `None`). -/
def reduce_add (l : List (Option ℝ)) : Option (Option ℝ) :=
  match l with
  | [] => none
  | x :: xs => some (xs.foldl oadd x)

/-- Model of `<Emitter as Iterator>::next`.  `pending` is the drained
message backlog.  After the terminated check, every note ages by one
per-sample duration, finished notes are purged, a grain is spawned when the
spawn timer passed `grain_interval`, every live grain is pulled once and
exhausted grains are dropped, per-note sums are scaled by the note ADSR
amplitude, and the total is soft-limited with `tanh` after the output
amplitude. -/
def Emitter.next {G : Type} (gnext : G → Option (Option ℝ) × G)
    (mkG : GrainSpec → G) (rng : ℝ → ℝ → ℝ)
    (e : Emitter G) (pending : List EmitterMessage) :
    Option (Option ℝ) × Emitter G :=
  let e := pending.foldl Emitter.handle_message e
  if e.terminated then (none, e)
  else
    let dt := e.audio_clip.duration_per_sample
    let stepped := e.notes.filterMap (fun note =>
      let note := note.update dt
      if note.state.isFinished then none
      else
        let note :=
          if note.since_last_grain ≥ grain_interval e.settings then
            { note with grains := note.grains ++ [make_grain mkG rng e note]
                        since_last_grain := 0 }
          else note
        let pulled := note.grains.map gnext
        let live_grains := (pulled.filter (fun p => p.1.isSome)).map (fun p => p.2)
        let note_samples := pulled.filterMap (fun p => p.1)
        let note := { note with grains := live_grains }
        let contribution : Option (Option ℝ) :=
          (reduce_add note_samples).map (fun s => omul s note.amplitude)
        some (note, contribution))
    let new_notes := stepped.map (fun p => p.1)
    let samples := stepped.filterMap (fun p => p.2)
    let out : Option ℝ :=
      match reduce_add samples with
      | some sample => (omul sample (some e.settings.amplitude)).map Real.tanh
      | none => some 0
    (some out, { e with notes := new_notes })

/-- Repeated polling of the emitter: each entry of `queues` is the message
backlog drained at the top of one `next` call; the returned list collects
the per-call iterator results. -/
def Emitter.run {G : Type} (gnext : G → Option (Option ℝ) × G)
    (mkG : GrainSpec → G) (rng : ℝ → ℝ → ℝ) :
    Emitter G → List (List EmitterMessage) → List (Option (Option ℝ))
  | _, [] => []
  | e, q :: qs =>
    let r := Emitter.next gnext mkG rng e q
    r.1 :: Emitter.run gnext mkG rng r.2 qs

/-! ## Concrete fixtures used by witnesses and counterexamples -/

/-- A trivially-instantiated pitched-grain pull: yields no sample. -/
def unit_gnext : Unit → Option (Option ℝ) × Unit := fun u => (none, u)

/-- Trivial pitched-grain constructor for the abstract grain type. -/
def unit_mkG : GrainSpec → Unit := fun _ => ()

/-- Deterministic stand-in for `thread_rng().gen_range(lo..hi)`. -/
def lo_rng : ℝ → ℝ → ℝ := fun lo _ => lo

/-- An empty stereo 44.1 kHz clip. -/
def clip44 : AudioClip := { data := [], channels := 2, sample_rate := 44100 }

/-- A one-sample mono clip. -/
def clip_one : AudioClip := { data := [0], channels := 1, sample_rate := 1 }

/-- A pool with one note of key 60 sitting in `Released(5)` and one note of
key 61 still held. -/
def released_pool : Emitter Unit :=
  { audio_clip := clip44, settings := emitter_settings_default
    notes := [{ key := 60, envelope := adsr_default, state := .released 5
                grains := [], since_last_grain := 0 },
              { key := 61, envelope := adsr_default, state := .held 1
                grains := [], since_last_grain := 0 }]
    terminated := false }

/-- A grain whose read cursor is already past the end of its clip. -/
def spent_grain : Grain :=
  { inner := { audio_clip := clip44, index := 5 }, amplitude := 1
    envelope := { amount := 0.5, skew := 0 }, total_duration := 1
    elapsed_duration := 0, duration_per_sample := 1 }

/-- A grain positioned on the single sample of `clip_one`. -/
def live_grain : Grain :=
  { inner := { audio_clip := clip_one, index := 0 }, amplitude := 1
    envelope := { amount := 0, skew := 0 }, total_duration := 1
    elapsed_duration := 0, duration_per_sample := 1 }

/-! ## Theorems -/

/-- Helper: a truncating per-sample duration is strictly below the exact
one when the divisor does not divide a second of nanoseconds. -/
theorem duration_per_sample_lt (c : AudioClip) (hr : 0 < c.sample_rate)
    (hc : 0 < c.channels) (hdvd : ¬ (c.sample_rate * c.channels ∣ 1000000000)) :
    c.duration_per_sample < 1 / ((c.sample_rate * c.channels : ℕ) : ℝ) := by
  have hn : 0 < c.sample_rate * c.channels := Nat.mul_pos hr hc
  have hlt : c.duration_per_sample_ns * (c.sample_rate * c.channels) < 1000000000 := by
    rcases Nat.lt_or_ge (c.duration_per_sample_ns * (c.sample_rate * c.channels))
        1000000000 with h | h
    · exact h
    · exfalso
      have hle : c.duration_per_sample_ns * (c.sample_rate * c.channels)
          ≤ 1000000000 := Nat.div_mul_le_self _ _
      have heq : c.duration_per_sample_ns * (c.sample_rate * c.channels)
          = 1000000000 := le_antisymm hle h
      exact hdvd ⟨c.duration_per_sample_ns, by rw [← heq]; ring⟩
  have hltR : (c.duration_per_sample_ns : ℝ) * ((c.sample_rate * c.channels : ℕ) : ℝ)
      < 1000000000 := by exact_mod_cast hlt
  have hnR : (0 : ℝ) < ((c.sample_rate * c.channels : ℕ) : ℝ) := by exact_mod_cast hn
  rw [AudioClip.duration_per_sample, div_lt_div_iff₀ (by norm_num) hnR]
  linarith

/-- C10: `duration_per_sample` is exactly the floor of
`10^9 / (sample_rate * channels)` nanoseconds (44100 Hz stereo gives
11337 ns rather than 1/88200 s), and both it and `total_duration`
(per-sample duration times `data.len()`) strictly underestimate the true
durations whenever `sample_rate * channels` does not divide `10^9`. -/
theorem c10_duration_truncation :
    clip44.duration_per_sample_ns = 11337 ∧
    (∀ c : AudioClip,
      c.duration_per_sample_ns =
        ⌊(1000000000 : ℝ) / ((c.sample_rate * c.channels : ℕ) : ℝ)⌋₊) ∧
    (∀ c : AudioClip,
      c.total_duration = c.duration_per_sample * (c.data.length : ℝ)) ∧
    (∀ c : AudioClip, 0 < c.sample_rate → 0 < c.channels →
      ¬ (c.sample_rate * c.channels ∣ 1000000000) →
      c.duration_per_sample < 1 / ((c.sample_rate * c.channels : ℕ) : ℝ)) ∧
    (∀ c : AudioClip, 0 < c.sample_rate → 0 < c.channels →
      ¬ (c.sample_rate * c.channels ∣ 1000000000) → 0 < c.data.length →
      c.total_duration <
        (c.data.length : ℝ) / ((c.sample_rate * c.channels : ℕ) : ℝ)) := by
  refine ⟨by decide, fun c => ?_, fun c => rfl,
    fun c hr hc hdvd => duration_per_sample_lt c hr hc hdvd,
    fun c hr hc hdvd hlen => ?_⟩
  · rw [show ((1000000000 : ℝ)) = ((1000000000 : ℕ) : ℝ) by norm_num,
      Nat.floor_div_nat, Nat.floor_natCast]
    rfl
  · have hps := duration_per_sample_lt c hr hc hdvd
    have hlenR : (0 : ℝ) < (c.data.length : ℝ) := by exact_mod_cast hlen
    have := mul_lt_mul_of_pos_right hps hlenR
    rw [AudioClip.total_duration]
    calc c.duration_per_sample * (c.data.length : ℝ)
        < 1 / ((c.sample_rate * c.channels : ℕ) : ℝ) * (c.data.length : ℝ) := this
      _ = (c.data.length : ℝ) / ((c.sample_rate * c.channels : ℕ) : ℝ) := by ring

/-- C10 witness: the underestimate at a concrete stereo 44.1 kHz clip with
three samples. -/
theorem c10_duration_truncation_witness :
    (0 < 44100 ∧ 0 < 2 ∧ ¬ (44100 * 2 ∣ 1000000000) ∧
      0 < (List.length [(0 : ℝ), 0, 0])) ∧
    AudioClip.total_duration { data := [0, 0, 0], channels := 2, sample_rate := 44100 } <
      ((List.length [(0 : ℝ), 0, 0] : ℕ) : ℝ) / ((44100 * 2 : ℕ) : ℝ) :=
  ⟨⟨by norm_num, by norm_num, by decide, by decide⟩,
    c10_duration_truncation.2.2.2.2
      { data := [0, 0, 0], channels := 2, sample_rate := 44100 }
      (by norm_num) (by norm_num) (by decide) (by decide)⟩

/-- C6: in Pitch mode the grain playback speed is
`2 ^ ((key + transpose - 60) / 12)`; with the default settings
(transpose 0) the speed at key 60 is exactly 1, at key 72 exactly 2 and at
key 48 exactly 1/2; in Slice mode the speed does not depend on the key. -/
theorem c6_pitch_mapping :
    (∀ (st : EmitterSettings) (key : ℕ), st.key_mode = KeyMode.pitch →
      grain_speed st key = (2 : ℝ) ^ ((((key : ℤ) + st.transpose - 60 : ℤ) : ℝ) / 12)) ∧
    grain_speed emitter_settings_default 60 = 1 ∧
    grain_speed emitter_settings_default 72 = 2 ∧
    grain_speed emitter_settings_default 48 = 1 / 2 ∧
    (∀ (st : EmitterSettings) (n key key' : ℕ), st.key_mode = KeyMode.slice n →
      grain_speed st key = grain_speed st key') := by
  have hdef : emitter_settings_default.key_mode = KeyMode.pitch := rfl
  have hval : ∀ key : ℕ, grain_speed emitter_settings_default key
      = (2 : ℝ) ^ ((((key : ℤ) - 60 : ℤ) : ℝ) / 12) := by
    intro key
    simp [grain_speed, emitter_settings_default, interval_to_ratio]
  refine ⟨fun st key h => by simp [grain_speed, h, interval_to_ratio], ?_, ?_, ?_, ?_⟩
  · rw [hval 60]
    norm_num
  · rw [hval 72]
    norm_num
  · rw [hval 48]
    norm_num
  · intro st n key key' h
    simp [grain_speed, h]

/-- C6 witness: the Pitch-mode formula and the Slice-mode key-independence
at concrete settings. -/
theorem c6_pitch_mapping_witness :
    (emitter_settings_default.key_mode = KeyMode.pitch ∧
      grain_speed emitter_settings_default 60
        = (2 : ℝ) ^ ((((60 : ℤ) + emitter_settings_default.transpose - 60 : ℤ) : ℝ) / 12)) ∧
    ({ emitter_settings_default with key_mode := KeyMode.slice 12 }.key_mode
        = KeyMode.slice 12 ∧
      grain_speed { emitter_settings_default with key_mode := KeyMode.slice 12 } 60
        = grain_speed { emitter_settings_default with key_mode := KeyMode.slice 12 } 72) :=
  ⟨⟨rfl, c6_pitch_mapping.1 emitter_settings_default 60 rfl⟩,
    ⟨rfl, c6_pitch_mapping.2.2.2.2 _ 12 60 72 rfl⟩⟩

/-- C4: contrary to the claim, a zero attack duration does make
`held_amplitude(0)` compute `0.0 / 0.0` (NaN, modelled as `none`) instead
of the post-attack level 1 — and the default envelope has attack zero; a
zero release similarly makes `released_amplitude(0)` NaN. -/
theorem c4_zero_duration_nan :
    adsr_default.attack = 0 ∧
    adsr_default.held_amplitude 0 = none ∧
    AdsrEnvelope.released_amplitude { adsr_default with release := 0 } 0 = none := by
  refine ⟨rfl, ?_, ?_⟩
  · simp [AdsrEnvelope.held_amplitude, adsr_default, fdiv]
  · simp [AdsrEnvelope.released_amplitude, adsr_default, fdiv]

/-- C1 counterexample: the claim promises FIFO eviction keeping the pool
within the polyphony limit, but `Emitter::handle_message` appends
unconditionally — after nine NoteOn messages and no NoteOff the pool holds
nine notes (above the default polyphony of 8 declared in `params.rs`), the
oldest (key 0) still first. -/
theorem c1_counterexample :
    (((List.range 9).map (fun k => EmitterMessage.midi (MidiMsg.noteOn k))).foldl
        Emitter.handle_message (Emitter.new Unit clip44)).notes.length = 9 ∧
    (((List.range 9).map (fun k => EmitterMessage.midi (MidiMsg.noteOn k))).foldl
        Emitter.handle_message (Emitter.new Unit clip44)).notes.map (fun n => n.key)
      = List.range 9 := ⟨rfl, rfl⟩

/-- C1 amended: handling NoteOn always appends one fresh note (carrying the
current note envelope) at the back of the pool — no note is ever evicted
and the new note is never rejected, so `k` NoteOn messages grow the pool by
exactly `k`, without any polyphony bound. -/
theorem c1_noteon_appends :
    ∀ (G : Type) (e : Emitter G) (key : ℕ),
      ((e.handle_message (.midi (.noteOn key))).notes
        = e.notes ++ [Note.new G key e.settings.note_envelope]) ∧
      (∀ keys : List ℕ,
        ((keys.map (fun k => EmitterMessage.midi (MidiMsg.noteOn k))).foldl
            Emitter.handle_message e).notes.length
          = e.notes.length + keys.length) := by
  intro G e key
  refine ⟨rfl, ?_⟩
  intro keys
  induction keys generalizing e with
  | nil => simp
  | cons k ks ih =>
    simp only [List.map_cons, List.foldl_cons, List.length_cons]
    rw [ih]
    simp [Emitter.handle_message]
    omega

/-- C8 counterexample: the claim says a NoteOff leaves notes already in the
Released state unchanged, but the handler resets every matching-key note to
`Released(ZERO)` — here a key-60 note sitting at `Released(5)` is moved
back to `Released(0)`. -/
theorem c8_counterexample :
    ((released_pool.handle_message (.midi (.noteOff 60))).notes.map (fun n => n.state)
      = [NoteState.released 0, NoteState.held 1]) ∧
    released_pool.notes.map (fun n => n.state)
      = [NoteState.released 5, NoteState.held 1] ∧
    NoteState.released (5 : ℝ) ≠ NoteState.released 0 := by
  refine ⟨rfl, rfl, ?_⟩
  intro h
  have : (5 : ℝ) = 0 := by injection h
  norm_num at this

/-- C8 amended: handling NoteOff sets every note of the pool whose key
matches to `Released(0)` — whatever state it was in, Held, Released or
Finished — and leaves notes with a different key unchanged (pool length and
order preserved). -/
theorem c8_noteoff_releases :
    ∀ (G : Type) (e : Emitter G) (key : ℕ),
      ((e.handle_message (.midi (.noteOff key))).notes.length = e.notes.length) ∧
      (∀ (i : ℕ) (h1 : i < e.notes.length)
        (h2 : i < (e.handle_message (.midi (.noteOff key))).notes.length),
        (e.handle_message (.midi (.noteOff key))).notes.get ⟨i, h2⟩
          = (if (e.notes.get ⟨i, h1⟩).key = key
             then { e.notes.get ⟨i, h1⟩ with state := .released 0 }
             else e.notes.get ⟨i, h1⟩)) := by
  intro G e key
  refine ⟨by simp [Emitter.handle_message], ?_⟩
  intro i h1 h2
  simp [Emitter.handle_message, List.get_eq_getElem, List.getElem_map]

/-- C8 amended witness: at the concrete two-note pool, the key-60 note is
reset to `Released(0)` and the key-61 note is untouched. -/
theorem c8_noteoff_releases_witness :
    ((released_pool.handle_message (.midi (.noteOff 60))).notes.length
      = released_pool.notes.length) ∧
    (released_pool.handle_message (.midi (.noteOff 60))).notes.get ⟨0, by decide⟩
      = { released_pool.notes.get ⟨0, by decide⟩ with state := .released 0 } ∧
    (released_pool.handle_message (.midi (.noteOff 60))).notes.get ⟨1, by decide⟩
      = released_pool.notes.get ⟨1, by decide⟩ := by
  have h := c8_noteoff_releases Unit released_pool 60
  refine ⟨h.1, ?_, ?_⟩
  · have h0 := h.2 0 (by decide) (by decide)
    simpa using h0
  · have h1 := h.2 1 (by decide) (by decide)
    simpa using h1

/-- Helper: no message ever clears the terminated flag. -/
theorem handle_message_keeps_terminated {G : Type} (e : Emitter G)
    (m : EmitterMessage) (h : e.terminated = true) :
    (e.handle_message m).terminated = true := by
  cases m with
  | settings s => exact h
  | midi mm => cases mm <;> exact h
  | terminate => rfl

/-- Helper: draining a backlog keeps the terminated flag set. -/
theorem foldl_keeps_terminated {G : Type} (msgs : List EmitterMessage)
    (e : Emitter G) (h : e.terminated = true) :
    (msgs.foldl Emitter.handle_message e).terminated = true := by
  induction msgs generalizing e with
  | nil => exact h
  | cons m ms ih =>
    exact ih _ (handle_message_keeps_terminated e m h)

/-- Helper: draining a backlog containing `Terminate` sets the flag. -/
theorem foldl_terminate_mem {G : Type} (msgs : List EmitterMessage)
    (e : Emitter G) (h : EmitterMessage.terminate ∈ msgs) :
    (msgs.foldl Emitter.handle_message e).terminated = true := by
  induction msgs generalizing e with
  | nil => cases h
  | cons m ms ih =>
    rcases List.mem_cons.mp h with h1 | h2
    · subst h1
      exact foldl_keeps_terminated ms _ rfl
    · exact ih _ h2

/-- Helper: a poll whose drained state is terminated yields end-of-stream
and does not modify the drained state. -/
theorem next_of_terminated {G : Type} (gnext : G → Option (Option ℝ) × G)
    (mkG : GrainSpec → G) (rng : ℝ → ℝ → ℝ) (e : Emitter G)
    (q : List EmitterMessage)
    (h : (q.foldl Emitter.handle_message e).terminated = true) :
    Emitter.next gnext mkG rng e q = (none, q.foldl Emitter.handle_message e) := by
  simp only [Emitter.next, h, if_true]

/-- Helper: every poll of a terminated emitter yields end-of-stream,
whatever arrives on the channel afterwards. -/
theorem run_of_terminated {G : Type} (gnext : G → Option (Option ℝ) × G)
    (mkG : GrainSpec → G) (rng : ℝ → ℝ → ℝ) (e : Emitter G)
    (qs : List (List EmitterMessage)) (h : e.terminated = true) :
    ∀ o ∈ Emitter.run gnext mkG rng e qs, o = none := by
  induction qs generalizing e with
  | nil => intro o ho; cases ho
  | cons q rest ih =>
    intro o ho
    have hq : (q.foldl Emitter.handle_message e).terminated = true :=
      foldl_keeps_terminated q e h
    rw [Emitter.run] at ho
    rw [next_of_terminated gnext mkG rng e q hq] at ho
    rcases List.mem_cons.mp ho with h1 | h2
    · exact h1
    · exact ih _ hq o h2

/-- C2: once a `Terminate` message is in the drained backlog, the very next
poll of the emitter yields end-of-stream (`none`), and so does every later
poll, regardless of any note or settings messages queued after the
`Terminate` or arriving later. -/
theorem c2_terminate_semantics :
    ∀ (G : Type) (gnext : G → Option (Option ℝ) × G) (mkG : GrainSpec → G)
      (rng : ℝ → ℝ → ℝ) (e : Emitter G) (q : List EmitterMessage)
      (qs : List (List EmitterMessage)),
      EmitterMessage.terminate ∈ q →
      ∀ o ∈ Emitter.run gnext mkG rng e (q :: qs), o = none := by
  intro G gnext mkG rng e q qs hmem o ho
  have hq : (q.foldl Emitter.handle_message e).terminated = true :=
    foldl_terminate_mem q e hmem
  rw [Emitter.run] at ho
  rw [next_of_terminated gnext mkG rng e q hq] at ho
  rcases List.mem_cons.mp ho with h1 | h2
  · exact h1
  · exact run_of_terminated gnext mkG rng _ qs hq o h2

/-- C2 witness: a backlog with note events around the `Terminate` followed
by two more polls with more note events still yields only end-of-stream. -/
theorem c2_terminate_semantics_witness :
    EmitterMessage.terminate
        ∈ [EmitterMessage.midi (MidiMsg.noteOn 60), EmitterMessage.terminate,
           EmitterMessage.midi (MidiMsg.noteOn 61)] ∧
    ∀ o ∈ Emitter.run unit_gnext unit_mkG lo_rng (Emitter.new Unit clip44)
        ([EmitterMessage.midi (MidiMsg.noteOn 60), EmitterMessage.terminate,
          EmitterMessage.midi (MidiMsg.noteOn 61)]
          :: [[EmitterMessage.midi (MidiMsg.noteOn 62)], []]), o = none :=
  ⟨by simp,
    c2_terminate_semantics Unit unit_gnext unit_mkG lo_rng (Emitter.new Unit clip44)
      _ _ (by simp)⟩

/-- C9: a fresh note starts with `since_last_grain = 100` seconds, so on
the very first processing step after the NoteOn (the timer having grown by
one per-sample duration) the spawn condition
`since_last_grain >= 1/density` holds for every density of at least
0.01 Hz, the note immediately spawns its first grain, and its spawn timer
is reset to zero. -/
theorem c9_first_grain :
    ∀ (G : Type) (gnext : G → Option (Option ℝ) × G) (mkG : GrainSpec → G)
      (rng : ℝ → ℝ → ℝ) (clip : AudioClip) (st : EmitterSettings)
      (key : ℕ) (env : AdsrEnvelope),
      1 / 100 ≤ st.density →
      (Note.new G key env).since_last_grain = 100 ∧
      grain_interval st
        ≤ ((Note.new G key env).update clip.duration_per_sample).since_last_grain ∧
      ((Emitter.next gnext mkG rng
          { audio_clip := clip, settings := st,
            notes := [Note.new G key env], terminated := false } []).1.isSome = true) ∧
      (((Emitter.next gnext mkG rng
          { audio_clip := clip, settings := st,
            notes := [Note.new G key env], terminated := false } []).2.notes.map
          fun n => n.since_last_grain) = [0]) := by
  intro G gnext mkG rng clip st key env hd
  have hdt : 0 ≤ clip.duration_per_sample :=
    div_nonneg (Nat.cast_nonneg _) (by norm_num)
  have hgi : grain_interval st ≤ 100 := by
    have h1 : 1 / st.density ≤ 1 / (1 / 100) :=
      one_div_le_one_div_of_le (by norm_num) hd
    rw [grain_interval]
    calc 1 / st.density ≤ 1 / (1 / 100) := h1
      _ = 100 := by norm_num
  have hupd : ((Note.new G key env).update clip.duration_per_sample).since_last_grain
      = 100 + clip.duration_per_sample := by
    simp [Note.new, Note.update]
  have hspawn : grain_interval st
      ≤ ((Note.new G key env).update clip.duration_per_sample).since_last_grain := by
    rw [hupd]; linarith
  have hspawn2 : grain_interval st ≤ 100 + clip.duration_per_sample := by
    linarith
  refine ⟨rfl, hspawn, ?_, ?_⟩
  · simp only [Emitter.next, List.foldl_nil]
    norm_num
  · simp only [Emitter.next, List.foldl_nil]
    simp only [Note.new, Note.update, List.filterMap_cons, List.filterMap_nil]
    simp only [NoteState.isFinished]
    simp only [if_pos hspawn2]
    simp

/-- C9 witness: with the default settings (density 10 Hz) and a fresh
key-60 note, the first poll spawns a grain and resets the spawn timer. -/
theorem c9_first_grain_witness :
    (1 / 100 ≤ emitter_settings_default.density) ∧
    (((Emitter.next unit_gnext unit_mkG lo_rng
        { audio_clip := clip44, settings := emitter_settings_default,
          notes := [Note.new Unit 60 adsr_default], terminated := false } []).2.notes.map
        fun n => n.since_last_grain) = [0]) :=
  ⟨by norm_num [emitter_settings_default],
    (c9_first_grain Unit unit_gnext unit_mkG lo_rng clip44 emitter_settings_default
      60 adsr_default (by norm_num [emitter_settings_default])).2.2.2⟩

/-- C7: pulling a sample from a grain never reads out of bounds — once the
read cursor is at or past the end of the clip buffer the pull yields `none`
(absence of sample, not an error), and conversely any pull that yields a
sample was made with the cursor strictly inside the buffer. -/
theorem c7_grain_safety :
    ∀ g : Grain,
      (g.inner.audio_clip.data.length ≤ g.inner.index → (g.next).1 = none) ∧
      ((g.next).1 ≠ none → g.inner.index < g.inner.audio_clip.data.length) := by
  intro g
  by_cases h : g.elapsed_duration ≥ g.total_duration
  · rw [Grain.next, if_pos h]
    exact ⟨fun _ => rfl, fun hne => absurd rfl hne⟩
  · rw [Grain.next, if_neg h]
    constructor
    · intro hlen
      have hnone : g.inner.audio_clip.data.get? g.inner.index = none :=
        List.get?_eq_none.mpr hlen
      simpa [GrainInner.next, hnone] using hlen
    · intro hne
      by_contra hge
      push_neg at hge
      have hnone : g.inner.audio_clip.data.get? g.inner.index = none :=
        List.get?_eq_none.mpr hge
      apply hne
      simpa [GrainInner.next, hnone] using hge

/-- C7 witness: a grain whose cursor is past the clip end yields `none`,
and a grain on a one-sample clip that does yield a sample has its cursor in
bounds. -/
theorem c7_grain_safety_witness :
    (spent_grain.inner.audio_clip.data.length ≤ spent_grain.inner.index ∧
      (spent_grain.next).1 = none) ∧
    ((live_grain.next).1 ≠ none ∧
      live_grain.inner.index < live_grain.inner.audio_clip.data.length) := by
  have hne : (live_grain.next).1 ≠ none := by
    norm_num [Grain.next, live_grain, GrainInner.next, clip_one]
    exact fun hcontra => Option.noConfusion hcontra
  exact ⟨⟨by decide, (c7_grain_safety spent_grain).1 (by decide)⟩,
    ⟨hne, (c7_grain_safety live_grain).2 hne⟩⟩

/-- Helper: the float clamp is the identity inside its bounds. -/
theorem fclamp_id {x lo hi : ℝ} (h1 : lo ≤ x) (h2 : x ≤ hi) : fclamp x lo hi = x := by
  rw [fclamp, max_eq_right h1, min_eq_right h2]

/-- C5 counterexample: the claim demands `amplitude_at(0) = 0` for every
`amount > 0` and every skew in `[-1, 1]`, but at skew `-1` (instant attack)
the eased-in region is empty and the window opens at full amplitude:
`amplitude_at(0) = 1`. -/
theorem c5_counterexample :
    ((0 : ℝ) < 1 / 2 ∧ (-1 : ℝ) ≤ -1 ∧ (-1 : ℝ) ≤ 1) ∧
    GrainEnvelope.amplitude_at { amount := 1 / 2, skew := -1 } 0 = some 1 ∧
    some (1 : ℝ) ≠ some 0 := by
  refine ⟨⟨by norm_num, le_refl _, by norm_num⟩, ?_, by simp⟩
  norm_num [GrainEnvelope.amplitude_at, tukey_window, fclamp]

/-- C5 amended: for `amount > 0` the window vanishes at 0 whenever
`skew > -1` and at 1 whenever `skew < 1` (at the excluded skew extremes the
code yields 1 at the instant-attack edge, resp. divides by zero at the
instant-decay edge); it is 1 strictly inside the plateau, identically 1 on
(0, 1) when `amount = 0`, and 0 outside `[0, 1]`. -/
theorem c5_amended :
    (∀ amount skew : ℝ, 0 < amount → amount ≤ 1 → -1 < skew → skew ≤ 1 →
      GrainEnvelope.amplitude_at { amount := amount, skew := skew } 0 = some 0) ∧
    (∀ amount skew : ℝ, 0 < amount → amount ≤ 1 → -1 ≤ skew → skew < 1 →
      GrainEnvelope.amplitude_at { amount := amount, skew := skew } 1 = some 0) ∧
    (∀ amount skew x : ℝ, 0 ≤ amount → -1 ≤ skew → skew ≤ 1 →
      0.5 * (amount + skew * amount) < x → x < 1 - 0.5 * (amount - skew * amount) →
      GrainEnvelope.amplitude_at { amount := amount, skew := skew } x = some 1) ∧
    (∀ skew x : ℝ, -1 ≤ skew → skew ≤ 1 → 0 < x → x < 1 →
      GrainEnvelope.amplitude_at { amount := 0, skew := skew } x = some 1) ∧
    (∀ amount skew x : ℝ, x < 0 ∨ 1 < x →
      GrainEnvelope.amplitude_at { amount := amount, skew := skew } x = some 0) := by
  refine ⟨?_, ?_, ?_, ?_, ?_⟩
  · intro amount skew ha0 ha1 hs0 hs1
    rw [GrainEnvelope.amplitude_at, tukey_window]
    simp only [fclamp_id (le_of_lt hs0) hs1]
    rw [if_neg (by norm_num), if_pos (by nlinarith)]
    norm_num
  · intro amount skew ha0 ha1 hs0 hs1
    rw [GrainEnvelope.amplitude_at, tukey_window]
    simp only [fclamp_id hs0 (le_of_lt hs1)]
    have hd : 1 * amount - skew * 1 * amount ≠ 0 := by nlinarith
    rw [if_neg (by norm_num), if_neg (by nlinarith), if_neg (by nlinarith), if_neg hd]
    have hd2 : amount - amount * skew ≠ 0 := by
      have hpos : 0 < amount - amount * skew := by nlinarith
      exact ne_of_gt hpos
    have harg : (2 * π * (1 - 1 + 0.5 * (1 * amount - skew * 1 * amount)))
        / (1 * amount - skew * 1 * amount) = π := by
      calc (2 * π * (1 - 1 + 0.5 * (1 * amount - skew * 1 * amount)))
          / (1 * amount - skew * 1 * amount)
          = π * ((amount - amount * skew) / (amount - amount * skew)) := by
            ring
        _ = π := by rw [div_self hd2, mul_one]
    rw [harg, Real.cos_pi]
    norm_num
  · intro amount skew x ha hs0 hs1 hx1 hx2
    rw [GrainEnvelope.amplitude_at, tukey_window]
    simp only [fclamp_id hs0 hs1]
    have h0x : 0 ≤ 0.5 * (amount + skew * amount) := by nlinarith
    have hx1' : 1 - 0.5 * (amount - skew * amount) ≤ 1 := by nlinarith
    rw [if_neg (by push_neg; constructor <;> nlinarith), if_neg (by nlinarith),
      if_pos (by nlinarith)]
  · intro skew x hs0 hs1 hx0 hx1
    rw [GrainEnvelope.amplitude_at, tukey_window]
    simp only [fclamp_id hs0 hs1]
    rw [if_neg (by push_neg; constructor <;> nlinarith), if_neg (by nlinarith),
      if_pos (by nlinarith)]
  · intro amount skew x hx
    rw [GrainEnvelope.amplitude_at, tukey_window]
    rcases hx with h | h
    · rw [if_pos (Or.inl h)]
    · rw [if_pos (Or.inr h)]

/-- C5 amended witness: the five window facts at concrete envelopes. -/
theorem c5_amended_witness :
    GrainEnvelope.amplitude_at { amount := 1 / 2, skew := 0 } 0 = some 0 ∧
    GrainEnvelope.amplitude_at { amount := 1 / 2, skew := 0 } 1 = some 0 ∧
    GrainEnvelope.amplitude_at { amount := 1 / 2, skew := 0 } (1 / 2) = some 1 ∧
    GrainEnvelope.amplitude_at { amount := 0, skew := 0 } (1 / 2) = some 1 ∧
    GrainEnvelope.amplitude_at { amount := 1 / 2, skew := 0 } 2 = some 0 :=
  ⟨c5_amended.1 (1 / 2) 0 (by norm_num) (by norm_num) (by norm_num) (by norm_num),
   c5_amended.2.1 (1 / 2) 0 (by norm_num) (by norm_num) (by norm_num) (by norm_num),
   c5_amended.2.2.1 (1 / 2) 0 (1 / 2) (by norm_num) (by norm_num) (by norm_num)
     (by norm_num) (by norm_num),
   c5_amended.2.2.2.1 0 (1 / 2) (by norm_num) (by norm_num) (by norm_num) (by norm_num),
   c5_amended.2.2.2.2 (1 / 2) 0 2 (by norm_num)⟩


/-- Helper: the ordered remap core with target 0..=1 stays in the unit interval. -/
theorem remapClampCore_mem01 (x a b : ℝ) :
    0 ≤ remapClampCore x a b 0 1 ∧ remapClampCore x a b 0 1 ≤ 1 := by
  rw [remapClampCore]
  split_ifs with h1 h2 h3
  · norm_num
  · norm_num
  · norm_num
  · push_neg at h1 h2 h3
    have ht0 : 0 < (x - a) / (b - a) := div_pos (by linarith) (by linarith)
    rw [lerp]
    constructor <;> nlinarith

/-- Helper: the ordered remap core with reversed target 1..=0 stays in the
unit interval. -/
theorem remapClampCore_mem10 (x a b : ℝ) :
    0 ≤ remapClampCore x a b 1 0 ∧ remapClampCore x a b 1 0 ≤ 1 := by
  rw [remapClampCore]
  split_ifs with h1 h2 h3
  · norm_num
  · norm_num
  · norm_num
  · push_neg at h1 h2 h3
    have ht0 : 0 < (x - a) / (b - a) := div_pos (by linarith) (by linarith)
    rw [lerp]
    constructor <;> nlinarith

/-- Helper: `remap_clamp` into 0..=1 stays in the unit interval. -/
theorem remap_clamp_mem (x a b : ℝ) :
    0 ≤ remap_clamp x a b 0 1 ∧ remap_clamp x a b 0 1 ≤ 1 := by
  rw [remap_clamp]
  split_ifs with h
  · exact remapClampCore_mem10 x b a
  · exact remapClampCore_mem01 x a b

/-- Helper: whenever the normalization core returns, the result is in [0,1]. -/
theorem vtnCore_mem (lg : Bool) (sp v mn mx r : ℝ)
    (h : vtnCore lg sp v mn mx = some r) : 0 ≤ r ∧ r ≤ 1 := by
  rw [vtnCore] at h
  split_ifs at h with h1 h2 h3 h4 h5
  all_goals
    first
    | exact Option.noConfusion h
    | (injection h with h
       subst h
       first
       | exact remap_clamp_mem _ _ _
       | norm_num)

/-- Helper: whenever `value_to_normalized` returns, the result is in [0,1]. -/
theorem value_to_normalized_mem (lg : Bool) (sp v mn mx r : ℝ)
    (h : value_to_normalized lg sp v mn mx = some r) : 0 ≤ r ∧ r ≤ 1 := by
  rw [value_to_normalized] at h
  split_ifs at h with h1 h2
  · injection h with h
    subst h
    norm_num
  · rcases Option.map_eq_some'.mp h with ⟨r', hr', hmap⟩
    have hb := vtnCore_mem lg sp v mx mn r' hr'
    subst hmap
    constructor <;> linarith [hb.1, hb.2]
  · exact vtnCore_mem lg sp v mn mx r h

/-- Helper: a degenerate range normalizes to 0.5. -/
theorem value_to_normalized_degenerate (lg : Bool) (sp v mn : ℝ) :
    value_to_normalized lg sp v mn mn = some 0.5 := by
  rw [value_to_normalized, if_pos rfl]

/-- Helper: the linear round trip is exact for every in-range value. -/
theorem round_trip_linear (sp v mn mx : ℝ) (hmm : mn < mx) (hlo : mn ≤ v)
    (hhi : v ≤ mx) : param_round_trip false sp v mn mx = some v := by
  rw [param_round_trip, value_to_normalized, if_neg (ne_of_lt hmm),
    if_neg (not_lt.mpr hmm.le), vtnCore]
  by_cases hvmn : v ≤ mn
  · have hveq : v = mn := le_antisymm hvmn hlo
    rw [if_pos hvmn]
    simp only [Option.some_bind]
    rw [normalized_to_value, if_neg (ne_of_lt hmm), if_neg (not_lt.mpr hmm.le),
      ntvCore, if_pos (le_refl (0 : ℝ)), hveq]
  · push_neg at hvmn
    rw [if_neg (not_le.mpr hvmn)]
    by_cases hvmx : v ≥ mx
    · have hveq : v = mx := le_antisymm hhi hvmx
      rw [if_pos hvmx]
      simp only [Option.some_bind]
      rw [normalized_to_value, if_neg (ne_of_lt hmm), if_neg (not_lt.mpr hmm.le),
        ntvCore, if_neg (by norm_num), if_pos (le_refl (1 : ℝ)), hveq]
    · push_neg at hvmx
      rw [if_neg (not_le.mpr hvmx), if_neg Bool.false_ne_true, remap_clamp,
        if_neg (not_lt.mpr hmm.le), remapClampCore, if_neg (not_le.mpr hvmn),
        if_neg (not_le.mpr hvmx)]
      have htpos : 0 < (v - mn) / (mx - mn) := div_pos (by linarith) (by linarith)
      have htlt : (v - mn) / (mx - mn) < 1 :=
        (div_lt_one (by linarith)).mpr (by linarith)
      rw [if_neg (not_le.mpr htlt)]
      have hlerp01 : lerp 0 1 ((v - mn) / (mx - mn)) = (v - mn) / (mx - mn) := by
        rw [lerp]; ring
      rw [hlerp01]
      simp only [Option.some_bind]
      rw [normalized_to_value, if_neg (ne_of_lt hmm), if_neg (not_lt.mpr hmm.le),
        ntvCore, if_neg (not_le.mpr htpos), if_neg (not_le.mpr htlt),
        if_neg Bool.false_ne_true, fclamp_id htpos.le htlt.le, lerp]
      have hval : (1 - (v - mn) / (mx - mn)) * mn + (v - mn) / (mx - mn) * mx = v := by
        have hne : mx - mn ≠ 0 := ne_of_gt (by linarith)
        field_simp
        ring
      rw [hval]

/-- Helper: the logarithmic round trip is exact at the lower range end and
for every in-range value strictly above both ends of the effective log
floor. -/
theorem round_trip_log (sp v mn mx : ℝ) (hmm : mn < mx) (hmn0 : 0 ≤ mn)
    (hsp : 0 < sp) (hv : v = mn ∨ (mn < v ∧ sp < v ∧ v ≤ mx)) :
    param_round_trip true sp v mn mx = some v := by
  rw [param_round_trip, value_to_normalized, if_neg (ne_of_lt hmm),
    if_neg (not_lt.mpr hmm.le), vtnCore]
  rcases hv with hveq | ⟨hmnv, hspv, hvmx⟩
  · rw [if_pos (le_of_eq hveq)]
    simp only [Option.some_bind]
    rw [normalized_to_value, if_neg (ne_of_lt hmm), if_neg (not_lt.mpr hmm.le),
      ntvCore, if_pos (le_refl (0 : ℝ)), hveq]
  · rw [if_neg (not_le.mpr hmnv)]
    by_cases hvtop : v ≥ mx
    · have hveq : v = mx := le_antisymm hvmx hvtop
      rw [if_pos hvtop]
      simp only [Option.some_bind]
      rw [normalized_to_value, if_neg (ne_of_lt hmm), if_neg (not_lt.mpr hmm.le),
        ntvCore, if_neg (by norm_num), if_pos (le_refl (1 : ℝ)), hveq]
    · push_neg at hvtop
      rw [if_neg (not_le.mpr hvtop), if_pos rfl, if_pos hmn0]
      have hv0 : 0 < v := lt_trans hsp hspv
      have hLlt : (if mn ≤ sp then Real.logb 10 sp else Real.logb 10 mn)
          < Real.logb 10 v := by
        by_cases hmsp : mn ≤ sp
        · rw [if_pos hmsp]
          exact Real.logb_lt_logb (by norm_num) hsp hspv
        · rw [if_neg hmsp]
          push_neg at hmsp
          exact Real.logb_lt_logb (by norm_num) (lt_trans hsp hmsp) hmnv
      have hxM : Real.logb 10 v < Real.logb 10 mx :=
        Real.logb_lt_logb (by norm_num) hv0 hvtop
      simp only [Option.some_bind]
      rw [normalized_to_value, if_neg (ne_of_lt hmm), if_neg (not_lt.mpr hmm.le)]
      generalize hLdef : (if mn ≤ sp then Real.logb 10 sp else Real.logb 10 mn) = L
      rw [hLdef] at hLlt
      rw [remap_clamp, if_neg (not_lt.mpr (le_of_lt (lt_trans hLlt hxM))),
        remapClampCore, if_neg (not_le.mpr hLlt), if_neg (not_le.mpr hxM)]
      have htpos : 0 < (Real.logb 10 v - L) / (Real.logb 10 mx - L) :=
        div_pos (by linarith) (by linarith)
      have htlt : (Real.logb 10 v - L) / (Real.logb 10 mx - L) < 1 :=
        (div_lt_one (by linarith)).mpr (by linarith)
      rw [if_neg (not_le.mpr htlt)]
      have hlerp01 : lerp 0 1 ((Real.logb 10 v - L) / (Real.logb 10 mx - L))
          = (Real.logb 10 v - L) / (Real.logb 10 mx - L) := by
        rw [lerp]; ring
      rw [hlerp01, ntvCore, if_neg (not_le.mpr htpos), if_neg (not_le.mpr htlt),
        if_pos rfl, if_pos hmn0, hLdef]
      have hlerpLM : lerp L (Real.logb 10 mx)
          ((Real.logb 10 v - L) / (Real.logb 10 mx - L)) = Real.logb 10 v := by
        rw [lerp]
        have hne : Real.logb 10 mx - L ≠ 0 := ne_of_gt (by linarith)
        field_simp
        ring
      rw [hlerpLM, Real.rpow_logb (by norm_num) (by norm_num) hv0]

/-- C3 amended: in exact real arithmetic `set_normalized(get_normalized())`
reproduces the value exactly for every in-range value in linear mode, and
in logarithmic mode for the range ends and every value strictly above the
`smallest_positive` floor (values strictly between `min` and the floor
collapse to `min` — see the counterexample); `get_normalized` always lands
in [0,1] when it returns, and a degenerate range yields 0.5. -/
theorem c3_amended :
    (∀ sp v mn mx : ℝ, mn < mx → mn ≤ v → v ≤ mx →
      param_round_trip false sp v mn mx = some v) ∧
    (∀ sp v mn mx : ℝ, mn < mx → 0 ≤ mn → 0 < sp →
      (v = mn ∨ (mn < v ∧ sp < v ∧ v ≤ mx)) →
      param_round_trip true sp v mn mx = some v) ∧
    (∀ (lg : Bool) (sp v mn mx r : ℝ),
      value_to_normalized lg sp v mn mx = some r → 0 ≤ r ∧ r ≤ 1) ∧
    (∀ (lg : Bool) (sp v mn : ℝ), value_to_normalized lg sp v mn mn = some 0.5) :=
  ⟨round_trip_linear, round_trip_log, value_to_normalized_mem,
    value_to_normalized_degenerate⟩

/-- C3 counterexample: in logarithmic mode with range 0..=10 and the
default `smallest_positive` floor of 1e-6, the in-range value 1e-8 does not
survive the round trip: `get_normalized` clamps it to 0 and
`set_normalized(0)` returns the range minimum 0, not 1e-8. -/
theorem c3_counterexample :
    ((0 : ℝ) < 10 ∧ (0 : ℝ) ≤ 1 / 100000000 ∧ (1 : ℝ) / 100000000 ≤ 10) ∧
    param_round_trip true (1 / 1000000) (1 / 100000000) 0 10 = some 0 ∧
    (0 : ℝ) ≠ 1 / 100000000 := by
  refine ⟨⟨by norm_num, by norm_num, by norm_num⟩, ?_, by norm_num⟩
  have hlog_sp : Real.logb 10 ((1 : ℝ) / 1000000) = -6 := by
    rw [show ((1 : ℝ) / 1000000) = (10 : ℝ) ^ ((-6 : ℤ) : ℝ) by
      rw [Real.rpow_intCast]; norm_num]
    rw [Real.logb_rpow (by norm_num) (by norm_num)]
    norm_num
  have hlog_v : Real.logb 10 ((1 : ℝ) / 100000000) = -8 := by
    rw [show ((1 : ℝ) / 100000000) = (10 : ℝ) ^ ((-8 : ℤ) : ℝ) by
      rw [Real.rpow_intCast]; norm_num]
    rw [Real.logb_rpow (by norm_num) (by norm_num)]
    norm_num
  rw [param_round_trip, value_to_normalized, if_neg (by norm_num : ¬(0 : ℝ) = 10),
    if_neg (by norm_num : ¬(0 : ℝ) > 10), vtnCore,
    if_neg (by norm_num : ¬(1 : ℝ) / 100000000 ≤ 0),
    if_neg (by norm_num : ¬(1 : ℝ) / 100000000 ≥ 10), if_pos rfl,
    if_pos (le_refl (0 : ℝ)), if_pos (by norm_num : (0 : ℝ) ≤ 1 / 1000000),
    hlog_sp, hlog_v, Real.logb_self_eq_one (by norm_num), remap_clamp,
    if_neg (by norm_num : ¬(1 : ℝ) < -6),
    remapClampCore, if_pos (by norm_num : (-8 : ℝ) ≤ -6)]
  simp only [Option.some_bind]
  rw [normalized_to_value, if_neg (by norm_num : ¬(0 : ℝ) = 10),
    if_neg (by norm_num : ¬(0 : ℝ) > 10), ntvCore, if_pos (le_refl (0 : ℝ))]

/-- C3 amended witness: the linear and logarithmic round trips, the [0,1]
bound and the degenerate case at concrete parameters. -/
theorem c3_amended_witness :
    param_round_trip false (1 / 1000000) 5 0 10 = some 5 ∧
    param_round_trip true (1 / 1000000) 1 0 10 = some 1 ∧
    ((0 : ℝ) ≤ 1 / 2 ∧ (1 : ℝ) / 2 ≤ 1) ∧
    value_to_normalized true (1 / 1000000) 5 3 3 = some 0.5 := by
  have hval : value_to_normalized false (1 / 1000000) 5 0 10 = some (1 / 2) := by
    norm_num [value_to_normalized, vtnCore, remap_clamp, remapClampCore, lerp]
  exact ⟨c3_amended.1 (1 / 1000000) 5 0 10 (by norm_num) (by norm_num) (by norm_num),
    c3_amended.2.1 (1 / 1000000) 1 0 10 (by norm_num) (by norm_num) (by norm_num)
      (Or.inr ⟨by norm_num, by norm_num, by norm_num⟩),
    c3_amended.2.2.1 false (1 / 1000000) 5 0 10 (1 / 2) hval,
    c3_amended.2.2.2 true (1 / 1000000) 5 3⟩

end
